import Mathlib

/-!
Verification of the RSVP admission-control core of the Event-management
repository (Express + Mongoose).

The embedding models the event document (`src/server/models/Event.js`),
the RSVP controller (`rsvpController.js`: `joinEvent`, `leaveEvent`) and
the capacity-update path of `eventController.js` (`updateEvent`) as pure
Lean functions over an explicit store state.  The Mongo store persists the
`attendees` array as a list of user ids; `$addToSet` appends a not-yet-present
element at the end and `$pull` removes every occurrence.  Mongo applies each
`findOneAndUpdate` atomically and linearizes concurrent updates on the same
document, so a run of concurrent controller calls is modelled as a sequential
interleaving of their atomic operations and diagnostic reads.
-/

namespace EventMgmt

/-- The event document as stored by `eventSchema` (only the fields the RSVP
core reads or writes).  `date` is the scheduled timestamp as a number
(milliseconds since epoch, as a JS `Date` compares); `capacity` is the JS
number stored for capacity; `attendees` is the stored array of user ids;
`creator` and `isActive` are the owner id and the soft-delete flag. -/
structure Event where
  capacity : Int
  attendees : List String
  creator : String
  date : Int
  isActive : Bool
  deriving Repr, DecidableEq

/-- The store state for one event id: `none` when no document with that id
exists, `some ev` otherwise. -/
abbrev StoreState := Option Event

/-- The atomic conditional update performed by `joinEvent`
(`rsvpController.js`): `findOneAndUpdate` with filter
`{_id, attendees: {$ne: userId}, $expr: {$lt: [{$size: attendees}, capacity]}}`
and update `{$addToSet: {attendees: userId}}`, option `new: true`.
Returns the post-update document when the filter matched, `none` otherwise.
The document is unchanged when the filter does not match. -/
def tryJoinAtomic (st : StoreState) (userId : String) : Option Event :=
  match st with
  | none => none
  | some ev =>
      if userId ∉ ev.attendees ∧ (ev.attendees.length : Int) < ev.capacity then
        some { ev with attendees := ev.attendees ++ [userId] }
      else
        none

/-- The atomic conditional update performed by `leaveEvent`:
`findOneAndUpdate` with filter `{_id, attendees: userId}` and update
`{$pull: {attendees: userId}}`, option `new: true`. -/
def tryLeaveAtomic (st : StoreState) (userId : String) : Option Event :=
  match st with
  | none => none
  | some ev =>
      if userId ∈ ev.attendees then
        some { ev with attendees := ev.attendees.filter (fun x => x ≠ userId) }
      else
        none

/-- Caller-facing outcome of a join request, mirroring the HTTP responses of
`joinEvent`.  `Joined` carries the returned updated event and the computed
`spotsRemaining = event.capacity - event.attendees.length`;
`AtCapacity` carries the `spotsRemaining: 0` field the 400 response includes. -/
inductive JoinResult where
  | Joined (event : Event) (spotsRemaining : Int)
  | NotFound
  | EventEnded
  | CreatorImplicitlyAttending
  | AlreadyJoined
  | AtCapacity (spotsRemaining : Int)
  | TransientConflict
  deriving Repr, DecidableEq

/-- Caller-facing outcome of a leave request, mirroring `leaveEvent`. -/
inductive LeaveResult where
  | Left (event : Event) (spotsRemaining : Int)
  | NotFound
  | NotJoined
  deriving Repr, DecidableEq

/-- The diagnostic branch of `joinEvent` run when the atomic update did not
apply: a fresh `findById` read, then in order
event missing → 404 Event not found;
`new Date(event.date) < new Date()` → past-event message;
`creator === userId` → creator message;
`attendees.includes(userId)` → already-RSVPed message;
`attendees.length >= capacity` → full-capacity message with
`spotsRemaining: 0`; otherwise the generic retry message. -/
def classifyJoinFailure (fresh : StoreState) (userId : String) (now : Int) :
    JoinResult :=
  match fresh with
  | none => .NotFound
  | some ev =>
      if ev.date < now then .EventEnded
      else if ev.creator = userId then .CreatorImplicitlyAttending
      else if userId ∈ ev.attendees then .AlreadyJoined
      else if ev.capacity ≤ (ev.attendees.length : Int) then .AtCapacity 0
      else .TransientConflict

/-- The full `joinEvent` controller for one request, as a state transformer:
the atomic conditional update, then on success the 200 response with the
updated event and `spotsRemaining`, on failure the diagnostic read and
classification.  Returns the post-request store state and the response. -/
def joinEvent (st : StoreState) (userId : String) (now : Int) :
    StoreState × JoinResult :=
  match tryJoinAtomic st userId with
  | some ev => (some ev, .Joined ev (ev.capacity - (ev.attendees.length : Int)))
  | none => (st, classifyJoinFailure st userId now)

/-- The full `leaveEvent` controller for one request: the atomic conditional
removal, then on success the 200 response with the updated event and
`spotsRemaining`, on failure the diagnostic read (404 when the event does not
exist, otherwise the not-RSVPed message). -/
def leaveEvent (st : StoreState) (userId : String) :
    StoreState × LeaveResult :=
  match tryLeaveAtomic st userId with
  | some ev => (some ev, .Left ev (ev.capacity - (ev.attendees.length : Int)))
  | none =>
      match st with
      | none => (st, .NotFound)
      | some _ => (st, .NotJoined)

/-- The route-level validator for a capacity field
(`body('capacity').isInt({min: 1})` in `eventRoutes`): the request is
rejected before reaching the controller unless the capacity is an integer of
at least 1.  `none` means the optional field is absent (update routes). -/
def capacityFieldValid : Option Int → Bool
  | none => true
  | some c => 1 ≤ c

/-- The capacity-handling path of `updateEvent` (`eventController.js`) for an
event the owner is updating: `if (capacity)` (JS truthiness, so `0` is
skipped), then reject with a 400 error when
`newCapacity < event.attendees.length`, else store the new capacity.
`Except.error` is the early `return res.status(400)` — it is issued before
`findByIdAndUpdate`, so no field of the event changes. -/
def updateEventCapacity (ev : Event) (capacity : Option Int) :
    Except String Event :=
  match capacity with
  | none => .ok ev
  | some c =>
      if c ≠ 0 then
        if c < (ev.attendees.length : Int) then
          .error "Capacity cannot be less than current attendees"
        else
          .ok { ev with capacity := c }
      else
        .ok ev

/-- `createEvent` (`eventController.js`) as far as the core fields go: a new
event starts with `attendees: []`, the given creator, capacity and date, and
`isActive` defaulting to `true` (the route validator has already enforced
`capacity ≥ 1`). -/
def createEvent (capacity : Int) (creator : String) (date : Int) : Event :=
  { capacity := capacity, attendees := [], creator := creator,
    date := date, isActive := true }

/-- Sequential interleaving of a batch of join requests: each caller's atomic
update commits in this order (the store's linearization). -/
def joinAll (st : StoreState) (users : List String) (now : Int) : StoreState :=
  users.foldl (fun s u => (joinEvent s u now).1) st

/-- The capacity invariant of the store: the attendee count of the stored
event (when one exists) does not exceed its capacity — the property the
`pre('save')` middleware of `eventSchema` asserts. -/
def capInv (st : StoreState) : Prop :=
  ∀ ev, st = some ev → (ev.attendees.length : Int) ≤ ev.capacity

/-- The `updateEvent` controller's effect on the stored event record together
with the optional 400 error message: on the capacity rejection the controller
returns before `findByIdAndUpdate`, so the stored event is unchanged. -/
def updateEventState (ev : Event) (capacity : Option Int) :
    Event × Option String :=
  match updateEventCapacity ev capacity with
  | .ok ev' => (ev', none)
  | .error msg => (ev, some msg)

/-! ### Helper lemmas about the atomic operations -/

theorem tryJoinAtomic_some_pos (ev : Event) (u : String)
    (h1 : u ∉ ev.attendees) (h2 : (ev.attendees.length : Int) < ev.capacity) :
    tryJoinAtomic (some ev) u = some { ev with attendees := ev.attendees ++ [u] } := by
  simp [tryJoinAtomic, h1, h2]

theorem tryJoinAtomic_some_neg (ev : Event) (u : String)
    (h : ¬(u ∉ ev.attendees ∧ (ev.attendees.length : Int) < ev.capacity)) :
    tryJoinAtomic (some ev) u = none := by
  simp only [tryJoinAtomic, if_neg h]

theorem classifyJoinFailure_ne_Joined (fresh : StoreState) (u : String)
    (now : Int) (ev : Event) (sp : Int) :
    classifyJoinFailure fresh u now ≠ JoinResult.Joined ev sp := by
  match fresh with
  | none => simp [classifyJoinFailure]
  | some e =>
      simp only [classifyJoinFailure]
      split_ifs <;> simp

theorem joinEvent_success (ev : Event) (u : String) (now : Int)
    (h1 : u ∉ ev.attendees) (h2 : (ev.attendees.length : Int) < ev.capacity) :
    joinEvent (some ev) u now =
      (some { ev with attendees := ev.attendees ++ [u] },
       JoinResult.Joined { ev with attendees := ev.attendees ++ [u] }
         (ev.capacity - ((ev.attendees.length : Int) + 1))) := by
  simp [joinEvent, tryJoinAtomic_some_pos ev u h1 h2]

theorem joinEvent_failure (ev : Event) (u : String) (now : Int)
    (h : ¬(u ∉ ev.attendees ∧ (ev.attendees.length : Int) < ev.capacity)) :
    joinEvent (some ev) u now = (some ev, classifyJoinFailure (some ev) u now) := by
  simp [joinEvent, tryJoinAtomic_some_neg ev u h]

theorem joinEvent_none (u : String) (now : Int) :
    joinEvent none u now = (none, JoinResult.NotFound) := rfl

/-! ### C1 -/

/-- C1: `joinEvent` adds `userId` to the attendee set exactly when the event
exists, `userId` is not already an attendee, and the attendee count is
strictly below capacity; on success the returned snapshot is exactly the
post-mutation state of the store (same event with `userId` appended). -/
theorem join_adds_iff_preconditions (st : StoreState) (u : String) (now : Int) :
    ((∃ ev sp, (joinEvent st u now).2 = JoinResult.Joined ev sp) ↔
      ∃ ev0, st = some ev0 ∧ u ∉ ev0.attendees ∧
        (ev0.attendees.length : Int) < ev0.capacity)
    ∧ ∀ ev sp, (joinEvent st u now).2 = JoinResult.Joined ev sp →
        (joinEvent st u now).1 = some ev ∧
        ∃ ev0, st = some ev0 ∧
          ev = { ev0 with attendees := ev0.attendees ++ [u] } := by
  match st with
  | none =>
      refine ⟨⟨?_, ?_⟩, ?_⟩
      · rintro ⟨ev, sp, h⟩; simp [joinEvent_none] at h
      · rintro ⟨ev0, h, -⟩; exact absurd h (by simp)
      · intro ev sp h; simp [joinEvent_none] at h
  | some ev0 =>
      by_cases hc : u ∉ ev0.attendees ∧ (ev0.attendees.length : Int) < ev0.capacity
      · refine ⟨⟨fun _ => ⟨ev0, rfl, hc.1, hc.2⟩, fun _ => ?_⟩, ?_⟩
        · exact ⟨_, _, by rw [joinEvent_success ev0 u now hc.1 hc.2]⟩
        · intro ev sp h
          rw [joinEvent_success ev0 u now hc.1 hc.2] at h ⊢
          simp only [Prod.snd] at h
          cases h
          exact ⟨rfl, ev0, rfl, rfl⟩
      · rw [joinEvent_failure ev0 u now hc]
        refine ⟨⟨?_, ?_⟩, ?_⟩
        · rintro ⟨ev, sp, h⟩
          have h' : classifyJoinFailure (some ev0) u now = JoinResult.Joined ev sp := h
          exact absurd h' (classifyJoinFailure_ne_Joined _ _ _ _ _)
        · rintro ⟨ev1, h, h1, h2⟩
          cases Option.some.inj h
          exact absurd ⟨h1, h2⟩ hc
        · intro ev sp h
          have h' : classifyJoinFailure (some ev0) u now = JoinResult.Joined ev sp := h
          exact absurd h' (classifyJoinFailure_ne_Joined _ _ _ _ _)

/-- Witness for C1 at a concrete input: a fresh event with capacity 2 and an
outside caller, where the join applies. -/
theorem join_adds_iff_preconditions_witness :
    (∃ ev sp,
      (joinEvent (some (createEvent 2 "c" 10)) "a" 0).2 = JoinResult.Joined ev sp) ∧
    (joinEvent (some (createEvent 2 "c" 10)) "a" 0).1 =
      some { createEvent 2 "c" 10 with attendees := ["a"] } := by
  refine ⟨(join_adds_iff_preconditions (some (createEvent 2 "c" 10)) "a" 0).1.mpr
    ⟨createEvent 2 "c" 10, rfl, by decide, by decide⟩, ?_⟩
  rcases (join_adds_iff_preconditions (some (createEvent 2 "c" 10)) "a" 0) with ⟨h1, h2⟩
  rcases h1.mpr ⟨createEvent 2 "c" 10, rfl, by decide, by decide⟩ with ⟨ev, sp, hev⟩
  rcases h2 ev sp hev with ⟨hst, ev0, hev0, hev'⟩
  cases Option.some.inj hev0
  rw [hst, hev']
  rfl

/-! ### Helper lemmas about leave -/

theorem tryLeaveAtomic_some_pos (ev : Event) (u : String) (h : u ∈ ev.attendees) :
    tryLeaveAtomic (some ev) u =
      some { ev with attendees := ev.attendees.filter (fun x => x ≠ u) } := by
  simp only [tryLeaveAtomic, if_pos h]

theorem tryLeaveAtomic_some_neg (ev : Event) (u : String) (h : u ∉ ev.attendees) :
    tryLeaveAtomic (some ev) u = none := by
  simp only [tryLeaveAtomic, if_neg h]

theorem leaveEvent_success (ev : Event) (u : String) (h : u ∈ ev.attendees) :
    leaveEvent (some ev) u =
      (some { ev with attendees := ev.attendees.filter (fun x => x ≠ u) },
       LeaveResult.Left { ev with attendees := ev.attendees.filter (fun x => x ≠ u) }
         (ev.capacity - ((ev.attendees.filter (fun x => x ≠ u)).length : Int))) := by
  simp [leaveEvent, tryLeaveAtomic_some_pos ev u h]

theorem leaveEvent_notJoined (ev : Event) (u : String) (h : u ∉ ev.attendees) :
    leaveEvent (some ev) u = (some ev, LeaveResult.NotJoined) := by
  simp [leaveEvent, tryLeaveAtomic_some_neg ev u h]

theorem leaveEvent_none (u : String) :
    leaveEvent none u = (none, LeaveResult.NotFound) := rfl

theorem not_mem_filter_ne_self (l : List String) (u : String) :
    u ∉ l.filter (fun x => x ≠ u) := by
  intro h
  have := List.of_mem_filter h
  simp at this

/-! ### C7 -/

/-- C7: `leaveEvent` removes `userId` from the attendee set exactly when the
event exists and `userId` is an attendee; the failure is `NotFound` for a
missing event and `NotJoined` for a non-member, with the store unchanged; a
second leave right after a successful one yields `NotJoined` and leaves the
attendee count unchanged. -/
theorem leave_contract (st : StoreState) (u : String) :
    ((∃ ev sp, (leaveEvent st u).2 = LeaveResult.Left ev sp) ↔
      ∃ ev0, st = some ev0 ∧ u ∈ ev0.attendees)
    ∧ (∀ ev sp, (leaveEvent st u).2 = LeaveResult.Left ev sp →
        (leaveEvent st u).1 = some ev ∧
        ∃ ev0, st = some ev0 ∧
          ev = { ev0 with attendees := ev0.attendees.filter (fun x => x ≠ u) })
    ∧ (st = none → leaveEvent st u = (none, LeaveResult.NotFound))
    ∧ (∀ ev0, st = some ev0 → u ∉ ev0.attendees →
        leaveEvent st u = (st, LeaveResult.NotJoined))
    ∧ (∀ ev sp, (leaveEvent st u).2 = LeaveResult.Left ev sp →
        leaveEvent (leaveEvent st u).1 u =
          ((leaveEvent st u).1, LeaveResult.NotJoined)) := by
  match st with
  | none =>
      refine ⟨⟨?_, ?_⟩, ?_, ?_, ?_, ?_⟩
      · rintro ⟨ev, sp, h⟩; simp [leaveEvent_none] at h
      · rintro ⟨ev0, h, -⟩; exact absurd h (by simp)
      · intro ev sp h; simp [leaveEvent_none] at h
      · intro _; rfl
      · intro ev1 h; exact absurd h (by simp)
      · intro ev sp h; simp [leaveEvent_none] at h
  | some ev0 =>
      by_cases hm : u ∈ ev0.attendees
      · rw [leaveEvent_success ev0 u hm]
        refine ⟨⟨fun _ => ⟨ev0, rfl, hm⟩, fun _ => ⟨_, _, rfl⟩⟩, ?_, ?_, ?_, ?_⟩
        · intro ev sp h
          simp only [Prod.snd] at h
          cases h
          exact ⟨rfl, ev0, rfl, rfl⟩
        · intro h; exact absurd h (by simp)
        · intro ev1 h1 h2
          cases Option.some.inj h1
          exact absurd hm h2
        · intro ev sp _
          exact leaveEvent_notJoined _ u (not_mem_filter_ne_self _ u)
      · rw [leaveEvent_notJoined ev0 u hm]
        refine ⟨⟨?_, ?_⟩, ?_, ?_, ?_, ?_⟩
        · rintro ⟨ev, sp, h⟩; simp at h
        · rintro ⟨ev1, h, hmem⟩
          cases Option.some.inj h
          exact absurd hmem hm
        · intro ev sp h; simp at h
        · intro h; exact absurd h (by simp)
        · intro ev1 _ _; rfl
        · intro ev sp h; simp at h

/-- Witness for C7: a two-member event where the caller is a member; the
leave applies, and a repeated leave reports `NotJoined`. -/
theorem leave_contract_witness :
    (∃ ev sp,
      (leaveEvent
        (some { capacity := 2, attendees := ["a", "b"], creator := "c",
                date := 10, isActive := true }) "a").2 = LeaveResult.Left ev sp) ∧
    (leaveEvent
        (some { capacity := 2, attendees := ["a", "b"], creator := "c",
                date := 10, isActive := true }) "a").1 =
      some { capacity := 2, attendees := ["b"], creator := "c",
             date := 10, isActive := true } := by
  refine ⟨(leave_contract
      (some { capacity := 2, attendees := ["a", "b"], creator := "c",
              date := 10, isActive := true }) "a").1.mpr
    ⟨_, rfl, by decide⟩, by rfl⟩

/-! ### C5 -/

/-- C5: whenever the atomic conditional update of a join or leave does not
apply, the store is left unchanged and the controller responds with a normal
classification value, never a `Joined`/`Left` success and never an exception
(the controller is a total function into the result type; the `catch` branch
is reached only by infrastructure failures, which the pure model excludes). -/
theorem failed_precondition_no_mutation (st : StoreState) (u : String) (now : Int) :
    (tryJoinAtomic st u = none →
      (joinEvent st u now).1 = st ∧
      ∀ ev sp, (joinEvent st u now).2 ≠ JoinResult.Joined ev sp)
    ∧ (tryLeaveAtomic st u = none →
      (leaveEvent st u).1 = st ∧
      ∀ ev sp, (leaveEvent st u).2 ≠ LeaveResult.Left ev sp) := by
  constructor
  · intro hfail
    constructor
    · simp only [joinEvent, hfail]
    · simp only [joinEvent, hfail]
      exact fun ev sp => classifyJoinFailure_ne_Joined st u now ev sp
  · intro hfail
    match st with
    | none => simp [leaveEvent_none]
    | some ev0 =>
        have hm : u ∉ ev0.attendees := by
          intro hmem
          rw [tryLeaveAtomic_some_pos ev0 u hmem] at hfail
          cases hfail
        rw [leaveEvent_notJoined ev0 u hm]
        exact ⟨rfl, by simp⟩

/-- Witness for C5: a full event (capacity 1, one attendee) and an outside
caller; both the join and the leave precondition fail, and the store state is
returned unchanged. -/
theorem failed_precondition_no_mutation_witness :
    (joinEvent
      (some { capacity := 1, attendees := ["b"], creator := "c",
              date := 10, isActive := true }) "a" 0).1 =
      some { capacity := 1, attendees := ["b"], creator := "c",
             date := 10, isActive := true } ∧
    (leaveEvent
      (some { capacity := 1, attendees := ["b"], creator := "c",
              date := 10, isActive := true }) "a").1 =
      some { capacity := 1, attendees := ["b"], creator := "c",
             date := 10, isActive := true } := by
  have h := failed_precondition_no_mutation
    (some { capacity := 1, attendees := ["b"], creator := "c",
            date := 10, isActive := true }) "a" 0
  exact ⟨(h.1 (by decide)).1, (h.2 (by decide)).1⟩

/-! ### C6 -/

/-- C6: when the atomic join update does not apply, `joinEvent` leaves the
store unchanged and classifies the cause against the event read back, in
exactly this priority order: missing event → `NotFound`; scheduled date
before now → `EventEnded`; caller is the creator →
`CreatorImplicitlyAttending`; caller already an attendee → `AlreadyJoined`;
attendee count at or above capacity → `AtCapacity` with `spotsRemaining = 0`;
otherwise → `TransientConflict`. -/
theorem join_failure_classification (st : StoreState) (u : String) (now : Int)
    (hfail : tryJoinAtomic st u = none) :
    (joinEvent st u now).1 = st
    ∧ (st = none → (joinEvent st u now).2 = JoinResult.NotFound)
    ∧ (∀ ev, st = some ev → ev.date < now →
        (joinEvent st u now).2 = JoinResult.EventEnded)
    ∧ (∀ ev, st = some ev → ¬ev.date < now → ev.creator = u →
        (joinEvent st u now).2 = JoinResult.CreatorImplicitlyAttending)
    ∧ (∀ ev, st = some ev → ¬ev.date < now → ev.creator ≠ u →
        u ∈ ev.attendees →
        (joinEvent st u now).2 = JoinResult.AlreadyJoined)
    ∧ (∀ ev, st = some ev → ¬ev.date < now → ev.creator ≠ u →
        u ∉ ev.attendees → ev.capacity ≤ (ev.attendees.length : Int) →
        (joinEvent st u now).2 = JoinResult.AtCapacity 0)
    ∧ (∀ ev, st = some ev → ¬ev.date < now → ev.creator ≠ u →
        u ∉ ev.attendees → ¬ev.capacity ≤ (ev.attendees.length : Int) →
        (joinEvent st u now).2 = JoinResult.TransientConflict) := by
  have hred : joinEvent st u now = (st, classifyJoinFailure st u now) := by
    simp only [joinEvent, hfail]
  rw [hred]
  refine ⟨rfl, ?_, ?_, ?_, ?_, ?_, ?_⟩
  · intro h; subst h; rfl
  · intro ev h hd; subst h
    simp only [classifyJoinFailure, if_pos hd]
  · intro ev h hd hcr; subst h
    simp only [classifyJoinFailure, if_neg hd, if_pos hcr]
  · intro ev h hd hcr hm; subst h
    simp only [classifyJoinFailure, if_neg hd, if_neg hcr, if_pos hm]
  · intro ev h hd hcr hm hcap; subst h
    simp only [classifyJoinFailure, if_neg hd, if_neg hcr, if_neg hm, if_pos hcap]
  · intro ev h hd hcr hm hcap; subst h
    simp only [classifyJoinFailure, if_neg hd, if_neg hcr, if_neg hm, if_neg hcap]

/-- Witness for C6 at a concrete input: a full event whose caller is neither
creator nor attendee, classified `AtCapacity` with `spotsRemaining = 0`. -/
theorem join_failure_classification_witness :
    (joinEvent
      (some { capacity := 1, attendees := ["b"], creator := "c",
              date := 10, isActive := true }) "a" 0).2 =
      JoinResult.AtCapacity 0 := by
  exact (join_failure_classification
    (some { capacity := 1, attendees := ["b"], creator := "c",
            date := 10, isActive := true }) "a" 0 (by decide)).2.2.2.2.2.1
    _ rfl (by decide) (by decide) (by decide) (by decide)

/-! ### C8 -/

/-- C8: on every successful join and every successful leave the response's
`spotsRemaining` equals `capacity - attendees.length` computed from the very
snapshot returned (which is the post-mutation store state), and it is
non-negative; for leave this uses the store invariant that the attendee count
does not exceed capacity before the call. -/
theorem spots_remaining_consistent (st : StoreState) (u : String) (now : Int)
    (hinv : ∀ ev, st = some ev → (ev.attendees.length : Int) ≤ ev.capacity) :
    (∀ ev sp, (joinEvent st u now).2 = JoinResult.Joined ev sp →
      sp = ev.capacity - (ev.attendees.length : Int) ∧ 0 ≤ sp ∧
      (joinEvent st u now).1 = some ev)
    ∧ (∀ ev sp, (leaveEvent st u).2 = LeaveResult.Left ev sp →
      sp = ev.capacity - (ev.attendees.length : Int) ∧ 0 ≤ sp ∧
      (leaveEvent st u).1 = some ev) := by
  constructor
  · intro ev sp h
    match st with
    | none => simp [joinEvent_none] at h
    | some ev0 =>
        by_cases hc : u ∉ ev0.attendees ∧ (ev0.attendees.length : Int) < ev0.capacity
        · rw [joinEvent_success ev0 u now hc.1 hc.2] at h ⊢
          simp only [Prod.snd] at h
          cases h
          refine ⟨by simp, ?_, rfl⟩
          have := hc.2
          omega
        · rw [joinEvent_failure ev0 u now hc] at h
          have h' : classifyJoinFailure (some ev0) u now = JoinResult.Joined ev sp := h
          exact absurd h' (classifyJoinFailure_ne_Joined _ _ _ _ _)
  · intro ev sp h
    match st with
    | none => simp [leaveEvent_none] at h
    | some ev0 =>
        by_cases hm : u ∈ ev0.attendees
        · rw [leaveEvent_success ev0 u hm] at h ⊢
          simp only [Prod.snd] at h
          cases h
          refine ⟨rfl, ?_, rfl⟩
          have hlen : (ev0.attendees.filter (fun x => x ≠ u)).length ≤
              ev0.attendees.length := List.length_filter_le _ _
          have hcap := hinv ev0 rfl
          omega
        · rw [leaveEvent_notJoined ev0 u hm] at h
          simp at h

/-- Witness for C8 at a concrete input: joining a fresh capacity-2 event
reports one spot remaining; leaving a two-member capacity-2 event reports one
spot remaining. -/
theorem spots_remaining_consistent_witness :
    (1 : Int) =
      ({ createEvent 2 "c" 10 with attendees := ["a"] } : Event).capacity -
        ((({ createEvent 2 "c" 10 with attendees := ["a"] } : Event).attendees.length : Nat) : Int)
    ∧ (0 : Int) ≤ 1 := by
  have h : (joinEvent (some (createEvent 2 "c" 10)) "a" 0).2 =
      JoinResult.Joined { createEvent 2 "c" 10 with attendees := ["a"] } 1 := by
    decide
  have hc := (spots_remaining_consistent (some (createEvent 2 "c" 10)) "a" 0
    (by intro ev hev; cases Option.some.inj hev; decide)).1 _ _ h
  exact ⟨hc.1, hc.2.1⟩

/-! ### Helper lemmas about join sequences -/

theorem joinEvent_state_cases (st : StoreState) (w : String) (now : Int) :
    (joinEvent st w now).1 = st ∨
    ∃ ev0, st = some ev0 ∧ w ∉ ev0.attendees ∧
      (ev0.attendees.length : Int) < ev0.capacity ∧
      (joinEvent st w now).1 =
        some { ev0 with attendees := ev0.attendees ++ [w] } := by
  match st with
  | none => left; rfl
  | some ev0 =>
      by_cases hc : w ∉ ev0.attendees ∧ (ev0.attendees.length : Int) < ev0.capacity
      · right
        exact ⟨ev0, rfl, hc.1, hc.2, by rw [joinEvent_success ev0 w now hc.1 hc.2]⟩
      · left
        rw [joinEvent_failure ev0 w now hc]

theorem joinEvent_count_le_one (st : StoreState) (w u : String) (now : Int)
    (h : ∀ ev, st = some ev → ev.attendees.count u ≤ 1) :
    ∀ ev, (joinEvent st w now).1 = some ev → ev.attendees.count u ≤ 1 := by
  intro ev hev
  rcases joinEvent_state_cases st w now with h1 | ⟨ev0, hst, hnm, hlt, h1⟩
  · exact h ev (h1 ▸ hev)
  · rw [h1] at hev
    cases Option.some.inj hev
    show (ev0.attendees ++ [w]).count u ≤ 1
    rw [List.count_append]
    by_cases hw : w = u
    · subst hw
      have h0 : ev0.attendees.count w = 0 := List.count_eq_zero.mpr hnm
      simp [h0]
    · have hun : u ∉ [w] := by
        simp only [List.mem_singleton]
        exact fun hcontra => hw hcontra.symm
      rw [List.count_eq_zero.mpr hun]
      simpa using h ev0 hst

theorem joinAll_cons (st : StoreState) (u : String) (us : List String) (now : Int) :
    joinAll st (u :: us) now = joinAll ((joinEvent st u now).1) us now := rfl

theorem joinAll_count_le_one (users : List String) (st : StoreState)
    (u : String) (now : Int)
    (h : ∀ ev, st = some ev → ev.attendees.count u ≤ 1) :
    ∀ ev, joinAll st users now = some ev → ev.attendees.count u ≤ 1 := by
  induction users generalizing st with
  | nil => exact h
  | cons w us ih =>
      intro ev hev
      exact ih _ (joinEvent_count_le_one st w u now h) ev hev

/-! ### C4 -/

/-- C4: any sequence of join attempts (by the user or anyone else) keeps the
user's multiplicity in the attendee list at most 1, and right after a
successful join the same user's next join finds `userId ∈ attendees`, so the
not-already-a-member conjunct of the atomic filter fails: the store is
unchanged and no second `Joined` success (and no exception) is produced. -/
theorem no_duplicate_membership (st : StoreState) (u : String)
    (users : List String) (now : Int) :
    ((∀ ev, st = some ev → ev.attendees.count u ≤ 1) →
      ∀ ev, joinAll st users now = some ev → ev.attendees.count u ≤ 1)
    ∧ (∀ ev sp, (joinEvent st u now).2 = JoinResult.Joined ev sp →
        u ∈ ev.attendees ∧
        (joinEvent st u now).1 = some ev ∧
        (joinEvent (some ev) u now).1 = some ev ∧
        ∀ ev' sp', (joinEvent (some ev) u now).2 ≠ JoinResult.Joined ev' sp') := by
  constructor
  · exact fun h => joinAll_count_le_one users st u now h
  · intro ev sp h
    match st with
    | none => simp [joinEvent_none] at h
    | some ev0 =>
        by_cases hc : u ∉ ev0.attendees ∧ (ev0.attendees.length : Int) < ev0.capacity
        · rw [joinEvent_success ev0 u now hc.1 hc.2] at h ⊢
          simp only [Prod.snd] at h
          cases h
          have hmem : u ∈ ev0.attendees ++ [u] := by simp
          have hfail2 : ¬(u ∉ (ev0.attendees ++ [u]) ∧
              (((ev0.attendees ++ [u]).length : Nat) : Int) <
                ev0.capacity) := by
            intro hcontra
            exact hcontra.1 hmem
          refine ⟨hmem, rfl, ?_, ?_⟩
          · rw [joinEvent_failure _ u now hfail2]
          · rw [joinEvent_failure _ u now hfail2]
            intro ev' sp' h'
            have h'' : classifyJoinFailure
                (some { ev0 with attendees := ev0.attendees ++ [u] }) u now =
                JoinResult.Joined ev' sp' := h'
            exact absurd h'' (classifyJoinFailure_ne_Joined _ _ _ _ _)
        · rw [joinEvent_failure ev0 u now hc] at h
          have h' : classifyJoinFailure (some ev0) u now =
              JoinResult.Joined ev sp := h
          exact absurd h' (classifyJoinFailure_ne_Joined _ _ _ _ _)

/-- Witness for C4: one join on a fresh event, then a repeat join by the same
user; the count stays at 1 and the repeat does not mutate the store. -/
theorem no_duplicate_membership_witness :
    ("a" ∈ ({ createEvent 2 "c" 10 with attendees := ["a"] } : Event).attendees)
    ∧ (joinEvent (some { createEvent 2 "c" 10 with attendees := ["a"] }) "a" 0).1 =
        some { createEvent 2 "c" 10 with attendees := ["a"] } := by
  have h : (joinEvent (some (createEvent 2 "c" 10)) "a" 0).2 =
      JoinResult.Joined { createEvent 2 "c" 10 with attendees := ["a"] } 1 := by
    decide
  have hc := (no_duplicate_membership (some (createEvent 2 "c" 10)) "a" [] 0).2 _ _ h
  exact ⟨hc.1, hc.2.2.1⟩

/-! ### C2 -/

/-- C2: for an event with capacity 1 and no attendees, under two racing join
calls by distinct non-creator users A and B (in either commit order, the
event not yet past), the first atomic commit wins with `Joined` and the other
call's atomic update fails and is classified `AtCapacity` with
`spotsRemaining = 0` by its diagnostic read; the attendee set ends as exactly
the winner — never both receive `Joined`. -/
theorem capacity_one_race (cr : String) (d : Int) (act : Bool)
    (A B first second : String) (now : Int)
    (hAB : A ≠ B) (hpast : ¬d < now) (hcA : cr ≠ A) (hcB : cr ≠ B)
    (horder : (first = A ∧ second = B) ∨ (first = B ∧ second = A)) :
    ∃ sp,
      joinEvent (some { capacity := 1, attendees := [], creator := cr,
                        date := d, isActive := act }) first now =
        (some { capacity := 1, attendees := [first], creator := cr,
                date := d, isActive := act },
         JoinResult.Joined { capacity := 1, attendees := [first], creator := cr,
                             date := d, isActive := act } sp) ∧
      joinEvent (some { capacity := 1, attendees := [first], creator := cr,
                        date := d, isActive := act }) second now =
        (some { capacity := 1, attendees := [first], creator := cr,
                date := d, isActive := act },
         JoinResult.AtCapacity 0) := by
  have hsf : second ≠ first := by
    rcases horder with ⟨h1, h2⟩ | ⟨h1, h2⟩ <;> subst h1 <;> subst h2
    · exact fun h => hAB h.symm
    · exact hAB
  have hcs : cr ≠ second := by
    rcases horder with ⟨h1, h2⟩ | ⟨h1, h2⟩ <;> subst h2
    · exact hcB
    · exact hcA
  refine ⟨1 - (((List.length ([] : List String) : Nat) : Int) + 1), ?_, ?_⟩
  · exact joinEvent_success _ first now (by simp) (by simp)
  · have hfail : ¬(second ∉ ([first] : List String) ∧
        (((List.length ([first] : List String) : Nat) : Int) < (1 : Int))) := by
      intro hcontra
      simp at hcontra
    rw [joinEvent_failure _ second now hfail]
    have hclass : classifyJoinFailure
        (some { capacity := 1, attendees := [first], creator := cr,
                date := d, isActive := act }) second now =
        JoinResult.AtCapacity 0 := by
      simp [classifyJoinFailure, hpast, hcs, hsf]
    rw [hclass]

/-- Witness for C2 at concrete users and event: "a" commits first and gets
`Joined`; "b" gets `AtCapacity 0`; the attendee set is exactly `["a"]`. -/
theorem capacity_one_race_witness :
    ∃ sp,
      joinEvent (some { capacity := 1, attendees := [], creator := "c",
                        date := 10, isActive := true }) "a" 0 =
        (some { capacity := 1, attendees := ["a"], creator := "c",
                date := 10, isActive := true },
         JoinResult.Joined { capacity := 1, attendees := ["a"], creator := "c",
                             date := 10, isActive := true } sp) ∧
      joinEvent (some { capacity := 1, attendees := ["a"], creator := "c",
                        date := 10, isActive := true }) "b" 0 =
        (some { capacity := 1, attendees := ["a"], creator := "c",
                date := 10, isActive := true },
         JoinResult.AtCapacity 0) :=
  capacity_one_race "c" 10 true "a" "b" "a" "b" 0 (by decide) (by decide)
    (by decide) (by decide) (Or.inl ⟨rfl, rfl⟩)

/-! ### Helper lemmas for the no-overbooking property -/

theorem joinAll_fresh (users : List String) (ev : Event) (now : Int)
    (hnd : users.Nodup) (hfresh : ∀ u ∈ users, u ∉ ev.attendees) :
    joinAll (some ev) users now =
      some { ev with attendees :=
        ev.attendees ++ users.take (ev.capacity.toNat - ev.attendees.length) } := by
  induction users generalizing ev with
  | nil => simp [joinAll]
  | cons u us ih =>
      have hu : u ∉ ev.attendees := hfresh u (by simp)
      have hnotin : u ∉ us := (List.nodup_cons.mp hnd).1
      have hndus : us.Nodup := (List.nodup_cons.mp hnd).2
      rw [joinAll_cons]
      by_cases hlt : (ev.attendees.length : Int) < ev.capacity
      · rw [joinEvent_success ev u now hu hlt]
        have hfresh' : ∀ x ∈ us,
            x ∉ ({ ev with attendees := ev.attendees ++ [u] } : Event).attendees := by
          intro x hx
          simp only [List.mem_append, List.mem_singleton]
          rintro (hmem | hequ)
          · exact hfresh x (by simp [hx]) hmem
          · exact hnotin (hequ ▸ hx)
        rw [ih { ev with attendees := ev.attendees ++ [u] } hndus hfresh']
        have hsplit : ev.capacity.toNat - ev.attendees.length =
            (ev.capacity.toNat - (ev.attendees.length + 1)) + 1 := by omega
        simp only [List.length_append, List.length_singleton, hsplit,
          List.take_succ_cons, List.append_assoc, List.singleton_append]
      · rw [joinEvent_failure ev u now (fun hc => hlt hc.2)]
        rw [ih ev hndus (fun x hx => hfresh x (by simp [hx]))]
        have h0 : ev.capacity.toNat - ev.attendees.length = 0 := by omega
        rw [h0, List.take_zero, List.take_zero]

/-! ### C3 -/

/-- C3: the capacity invariant `|attendees| ≤ capacity` is preserved by every
join, every leave, every join sequence and every accepted owner capacity
update; and a sequence of N join attempts by distinct users on an event with
no attendees ends with exactly `min N capacity` distinct attendees, all drawn
from the attempting users. -/
theorem no_overbooking :
    (∀ st u now, capInv st → capInv (joinEvent st u now).1)
    ∧ (∀ st u, capInv st → capInv (leaveEvent st u).1)
    ∧ (∀ st users now, capInv st → capInv (joinAll st users now))
    ∧ (∀ ev c ev', (ev.attendees.length : Int) ≤ ev.capacity →
        updateEventCapacity ev c = Except.ok ev' →
        (ev'.attendees.length : Int) ≤ ev'.capacity)
    ∧ (∀ ev users now, ev.attendees = [] → users.Nodup →
        ∃ ev', joinAll (some ev) users now = some ev' ∧
          ev'.attendees.length = min users.length ev.capacity.toNat ∧
          ((0 : Int) ≤ ev.capacity →
            (ev'.attendees.length : Int) = min (users.length : Int) ev.capacity) ∧
          ev'.attendees.Nodup ∧ ∀ x ∈ ev'.attendees, x ∈ users) := by
  have hjoin : ∀ st u now, capInv st → capInv (joinEvent st u now).1 := by
    intro st u now hinv ev hev
    rcases joinEvent_state_cases st u now with h1 | ⟨ev0, hst, hnm, hlt, h1⟩
    · exact hinv ev (h1 ▸ hev)
    · rw [h1] at hev
      cases Option.some.inj hev
      simp only [List.length_append, List.length_singleton]
      push_cast
      omega
  refine ⟨hjoin, ?_, ?_, ?_, ?_⟩
  · intro st u hinv ev hev
    match st with
    | none => simp [leaveEvent_none] at hev
    | some ev0 =>
        by_cases hm : u ∈ ev0.attendees
        · rw [leaveEvent_success ev0 u hm] at hev
          cases Option.some.inj hev
          have hlen : (ev0.attendees.filter (fun x => x ≠ u)).length ≤
              ev0.attendees.length := List.length_filter_le _ _
          have := hinv ev0 rfl
          simp only []
          omega
        · rw [leaveEvent_notJoined ev0 u hm] at hev
          exact hinv ev hev
  · intro st users now hinv
    induction users generalizing st with
    | nil => exact hinv
    | cons w us ih => exact ih _ (hjoin st w now hinv)
  · intro ev c ev' hinv hok
    match c with
    | none =>
        simp only [updateEventCapacity] at hok
        cases Except.ok.inj hok
        exact hinv
    | some cv =>
        simp only [updateEventCapacity] at hok
        by_cases hz : cv ≠ 0
        · rw [if_pos hz] at hok
          by_cases hlt : cv < (ev.attendees.length : Int)
          · rw [if_pos hlt] at hok; cases hok
          · rw [if_neg hlt] at hok
            cases Except.ok.inj hok
            simp only []
            omega
        · rw [if_neg hz] at hok
          cases Except.ok.inj hok
          exact hinv
  · intro ev users now hempty hnd
    have hfresh : ∀ u ∈ users, u ∉ ev.attendees := by
      intro u _; rw [hempty]; simp
    refine ⟨_, joinAll_fresh users ev now hnd hfresh, ?_, ?_, ?_, ?_⟩
    · simp [hempty, List.length_take, Nat.min_comm]
    · intro hpos
      simp only [hempty, List.nil_append, List.length_take, Nat.sub_zero,
        List.length_nil]
      push_cast
      omega
    · simp only [hempty, List.nil_append]
      exact hnd.sublist (List.take_sublist _ _)
    · simp only [hempty, List.nil_append]
      exact fun x hx => List.take_subset _ _ hx

/-- Witness for C3: the invariant is preserved by a concrete join on a
capacity-1 event, and three distinct users joining an empty capacity-2 event
leave exactly `min 3 2 = 2` attendees. -/
theorem no_overbooking_witness :
    capInv (joinEvent (some (createEvent 1 "c" 10)) "a" 0).1 ∧
    ∃ ev', joinAll (some (createEvent 2 "c" 10)) ["a", "b", "d"] 0 = some ev' ∧
      ev'.attendees.length = min 3 2 := by
  constructor
  · exact no_overbooking.1 (some (createEvent 1 "c" 10)) "a" 0
      (by intro ev hev; cases Option.some.inj hev; decide)
  · obtain ⟨ev', h1, h2, -⟩ := no_overbooking.2.2.2.2 (createEvent 2 "c" 10)
      ["a", "b", "d"] 0 rfl (by decide)
    exact ⟨ev', h1, h2⟩

/-! ### C9 -/

/-- C9 counterexample: an event whose scheduled date (0) is already in the
past at time 5 and whose `isActive` flag is false is still joined by an
outside caller — the atomic filter of `joinEvent` checks only membership and
capacity, so the attendee set is mutated despite the event being past and
soft-deleted, contradicting the claim that no member is ever added then. -/
theorem past_inactive_join_counterexample :
    (({ capacity := 1, attendees := [], creator := "c", date := 0,
        isActive := false } : Event).date < 5
      ∧ ({ capacity := 1, attendees := [], creator := "c", date := 0,
           isActive := false } : Event).isActive = false)
    ∧ joinEvent (some { capacity := 1, attendees := [], creator := "c",
                        date := 0, isActive := false }) "a" 5 =
        (some { capacity := 1, attendees := ["a"], creator := "c", date := 0,
                isActive := false },
         JoinResult.Joined { capacity := 1, attendees := ["a"], creator := "c",
                             date := 0, isActive := false } 0) := by
  decide

/-- C9 (amended): the past-date and `isActive` checks are not part of the
atomic join precondition — they live only in the diagnostic messaging path —
so whenever the membership and capacity preconditions hold, the join mutates
the attendee set regardless of the event's date or `isActive` flag. -/
theorem join_ignores_past_and_inactive (ev : Event) (u : String) (now : Int)
    (h1 : u ∉ ev.attendees) (h2 : (ev.attendees.length : Int) < ev.capacity) :
    (joinEvent (some ev) u now).1 =
      some { ev with attendees := ev.attendees ++ [u] } ∧
    (joinEvent (some ev) u now).2 =
      JoinResult.Joined { ev with attendees := ev.attendees ++ [u] }
        (ev.capacity - ((ev.attendees.length : Int) + 1)) := by
  rw [joinEvent_success ev u now h1 h2]
  exact ⟨rfl, rfl⟩

/-- Witness for the amended C9 at the past, soft-deleted concrete event. -/
theorem join_ignores_past_and_inactive_witness :
    (joinEvent (some { capacity := 1, attendees := [], creator := "c",
                       date := 0, isActive := false }) "a" 5).1 =
      some { capacity := 1, attendees := ["a"], creator := "c", date := 0,
             isActive := false } := by
  have h := (join_ignores_past_and_inactive
    { capacity := 1, attendees := [], creator := "c", date := 0,
      isActive := false } "a" 5 (by decide) (by decide)).1
  simpa using h

/-! ### C10 -/

/-- C10: under the route validator (`capacity` an integer ≥ 1), a created
event's capacity is at least 1 and any accepted update keeps it at least 1;
an owner update requesting a capacity below the current attendee count is
rejected with the 400 error and leaves the event record unchanged, while a
request at or above the attendee count is accepted and stores exactly the new
capacity. -/
theorem capacity_update_contract (ev : Event) (c : Int) (capField : Option Int)
    (cr : String) (d : Int) :
    (capacityFieldValid (some c) = true → 1 ≤ (createEvent c cr d).capacity)
    ∧ (capacityFieldValid capField = true → 1 ≤ ev.capacity →
        ∀ ev', updateEventCapacity ev capField = Except.ok ev' →
          1 ≤ ev'.capacity)
    ∧ (capacityFieldValid (some c) = true → c < (ev.attendees.length : Int) →
        updateEventCapacity ev (some c) =
          Except.error "Capacity cannot be less than current attendees"
        ∧ (updateEventState ev (some c)).1 = ev)
    ∧ (capacityFieldValid (some c) = true → (ev.attendees.length : Int) ≤ c →
        updateEventCapacity ev (some c) =
          Except.ok { ev with capacity := c }) := by
  refine ⟨?_, ?_, ?_, ?_⟩
  · intro hval
    simp only [capacityFieldValid, decide_eq_true_eq] at hval
    exact hval
  · intro hval hcap ev' hok
    match capField with
    | none =>
        simp only [updateEventCapacity] at hok
        cases Except.ok.inj hok
        exact hcap
    | some cv =>
        simp only [capacityFieldValid, decide_eq_true_eq] at hval
        have hz : cv ≠ 0 := by omega
        simp only [updateEventCapacity, if_pos hz] at hok
        by_cases hlt : cv < (ev.attendees.length : Int)
        · rw [if_pos hlt] at hok; cases hok
        · rw [if_neg hlt] at hok
          cases Except.ok.inj hok
          exact hval
  · intro hval hlt
    simp only [capacityFieldValid, decide_eq_true_eq] at hval
    have hz : c ≠ 0 := by omega
    constructor
    · simp only [updateEventCapacity, if_pos hz, if_pos hlt]
    · simp only [updateEventState, updateEventCapacity, if_pos hz, if_pos hlt]
  · intro hval hge
    simp only [capacityFieldValid, decide_eq_true_eq] at hval
    have hz : c ≠ 0 := by omega
    simp only [updateEventCapacity, if_pos hz, if_neg (not_lt.mpr hge)]

/-- Witness for C10: an event with two attendees rejects a capacity update to
1 and accepts a capacity update to 2. -/
theorem capacity_update_contract_witness :
    (updateEventCapacity
      { capacity := 3, attendees := ["a", "b"], creator := "c", date := 10,
        isActive := true } (some 1) =
      Except.error "Capacity cannot be less than current attendees")
    ∧ (updateEventCapacity
      { capacity := 3, attendees := ["a", "b"], creator := "c", date := 10,
        isActive := true } (some 2) =
      Except.ok { capacity := 2, attendees := ["a", "b"], creator := "c",
                  date := 10, isActive := true }) := by
  constructor
  · exact ((capacity_update_contract
      { capacity := 3, attendees := ["a", "b"], creator := "c", date := 10,
        isActive := true } 1 none "x" 0).2.2.1 (by decide) (by decide)).1
  · exact (capacity_update_contract
      { capacity := 3, attendees := ["a", "b"], creator := "c", date := 10,
        isActive := true } 2 none "x" 0).2.2.2 (by decide) (by decide)

end EventMgmt
